import Mathlib

set_option maxRecDepth 4000

/-!
Verification of the rsh shell's execution core against its specification.

The definitions below are a shallow embedding of the Rust sources:
  * src/shell/mod.rs      (Shell, Shell::parse, Shell::parse_shell,
                           Shell::find_path, Shell::interact)
  * src/shell/splitter.rs (split_arguments)
  * src/native/mod.rs     (fork_process, execute, open_file, replace_fdi)
  * src/native/error.rs   (Error)

Syscalls are modelled as data: the redirections parse_shell would apply are
recorded as a list of `Redir` requests, the parent-side system calls of one
`parse` invocation as a list of `Effect`s, and the outcomes of fork/exec are
supplied by small oracle values (`ForkOutcome`, an optional errno for execve).
Paths are modelled as strings (the non-UTF-8 path cases collapse), and the
`HashMap<String, String>` of shell variables as an association list looked up
by first match.
-/

namespace Rsh

/-- Error type from src/native/error.rs. `errno` carries the code captured
from the C errno location (the human-readable text is dropped). -/
inductive Error where
  | invalidCString
  | invalidUnicode
  | notFound
  | errno (code : Int)
deriving DecidableEq, Repr

/-- Result alias from src/native/error.rs. -/
abbrev Result (α : Type) := Except Error α

/-- Flag O_RDONLY from libc (Linux). -/
def O_RDONLY : Int := 0

/-- Flag O_WRONLY from libc (Linux). -/
def O_WRONLY : Int := 1

/-- Flag O_CREAT from libc (Linux, octal 100). -/
def O_CREAT : Int := 64

/-- Mode S_IRUSR from libc (octal 400): owner-read permission only. -/
def S_IRUSR : Int := 256

/-- Shell state from src/shell/mod.rs lines 15-25. Field order and names
follow the Rust struct; `PathBuf` fields are strings here. -/
structure Shell where
  -- the Rust field is named `variables`; that word is reserved in Lean 4
  vars : List (String × String)
  is_login : Bool
  argv : List String
  user : Int
  status : Int
  home : String
  path : List String
  prompt : String
  cwd : String
deriving DecidableEq, Repr

/-!
String primitives. The Rust code works on `str` slices by byte index; all
inputs of interest are ASCII, where byte and character indices coincide, so
the primitives below model the `str` operations as structural functions on
the character list of the string (Lean's own `String.drop` and friends do
not reduce inside the kernel, which the concrete evaluations need).
-/

/-- Rust's `str::contains(char)`. -/
def sContains (s : String) (c : Char) : Bool := s.toList.contains c

/-- Rust's `str::starts_with`. -/
def sStartsWith (s p : String) : Bool := p.toList.isPrefixOf s.toList

/-- Rust's `str::ends_with`. -/
def sEndsWith (s p : String) : Bool := p.toList.isSuffixOf s.toList

/-- Slice `s[n..]` (also `String::remove(0)` for n = 1). -/
def sDrop (s : String) (n : Nat) : String := ⟨s.toList.drop n⟩

/-- Slice `s[..n]`. -/
def sTake (s : String) (n : Nat) : String := ⟨s.toList.take n⟩

/-- Rust's `String::pop` dropping the last character. -/
def sDropLast (s : String) : String := ⟨s.toList.dropLast⟩

/-- Rust's `str::len` (character count; equal to byte count on ASCII). -/
def sLength (s : String) : Nat := s.toList.length

/-- Rust's `str::split_whitespace`: fields separated by runs of whitespace,
with no empty fields produced. -/
def splitWhitespaceAux : List Char → List Char → List String
  | [], acc => if acc.isEmpty then [] else [⟨acc.reverse⟩]
  | c :: cs, acc =>
    if c.isWhitespace then
      if acc.isEmpty then splitWhitespaceAux cs []
      else ⟨acc.reverse⟩ :: splitWhitespaceAux cs []
    else splitWhitespaceAux cs (c :: acc)

/-- Tokenization step of Shell::parse (line 81): `line.split_whitespace()`. -/
def splitWhitespace (s : String) : List String :=
  splitWhitespaceAux s.toList []

/-- Rust's `str::parse::<i32>`: optional sign, at least one digit, all
digits, value within the i32 range. -/
def parseI32 (s : String) : Option Int :=
  let cs := s.toList
  let signAndDigits : Int × List Char :=
    match cs with
    | '+' :: rest => (1, rest)
    | '-' :: rest => (-1, rest)
    | _ => (1, cs)
  let digits := signAndDigits.2
  if digits.isEmpty then none
  else if digits.all Char.isDigit then
    let n : Nat := digits.foldl (fun a c => a * 10 + (c.toNat - '0'.toNat)) 0
    let v : Int := signAndDigits.1 * Int.ofNat n
    if -2147483648 ≤ v ∧ v < 2147483648 then some v else none
  else none

/-- Index of the first `>` in a token: Rust's `arg.find(">")` in
Shell::parse_shell line 147 (tokens are ASCII, so byte and char indices
coincide). -/
def findGt (s : String) : Option Nat :=
  s.toList.findIdx? (· = '>')

/-- Variable lookup of Shell::parse_shell lines 142-144: the shell-local
map first, then the process environment, then the empty string. -/
def expandLookup (vars env : List (String × String)) (name : String) : String :=
  ((vars.lookup name).map id).getD (((env.lookup name).map id).getD "")

/-- One redirection applied by Shell::parse_shell. `file old path flags mode`
records `open_file(path, flags, Some(mode))` followed by
`replace_fdi(old, fd)` on the returned fd (src/shell/mod.rs lines 164-172);
`dup old new` records `replace_fdi(old, new)` for the `>&` form. -/
inductive Redir where
  | file (oldFd : Int) (path : String) (flags : Int) (mode : Int)
  | dup (oldFd : Int) (newFd : Int)
deriving DecidableEq, Repr

/-- An `arguments.next()` call pending from the previous loop iteration of
Shell::parse_shell: the `>&`-with-no-suffix form takes the next token as
the target fd (line 155), and a lone `>` takes it as the file path
(line 165). Recording the pending consumption as state keeps the recursion
one token at a time while consuming exactly the same tokens as the source's
iterator. -/
inductive Pending where
  | dupFd (oldFd : Int)
  | pathFd (oldFd : Int)
deriving DecidableEq, Repr

/-- Loop body of Shell::parse_shell (src/shell/mod.rs lines 131-185),
translated clause by clause. The arguments after the token list are the
pending `arguments.next()` consumption (see `Pending`), then the mutable
locals `is_double`, `in_double`, `result`, plus the accumulated redirection
requests (in the source these are applied to the live fd table at line 172;
here they are recorded). `open_file` is modelled as succeeding, with the
request captured in the `Redir.file` constructor. -/
def parseShellAux (vars env : List (String × String)) :
    List String → Option Pending → Bool → String → List String →
    List Redir → Result (List String × List Redir)
  | [], some _, _isDouble, _inDouble, _result, _redirs =>
    -- lines 155, 165: `arguments.next().ok_or(Error::NotFound)`
    .error .notFound
  | [], none, _isDouble, _inDouble, result, redirs => .ok (result, redirs)
  | next :: rest, some (.dupFd oldFd), isDouble, inDouble, result, redirs =>
    -- lines 155-159: the raw next token parsed as the target fd
    match parseI32 next with
    | none => .error .notFound
    | some newFd =>
      parseShellAux vars env rest none isDouble inDouble result
        (redirs ++ [.dup oldFd newFd])
  | next :: rest, some (.pathFd oldFd), isDouble, inDouble, result, redirs =>
    -- lines 164-171: the raw next token used as the file path
    parseShellAux vars env rest none isDouble inDouble result
      (redirs ++ [.file oldFd next (O_CREAT + O_WRONLY) S_IRUSR])
  | arg0 :: rest, none, isDouble, inDouble, result, redirs =>
    -- lines 136-139: a leading double quote toggles is_double and is removed
    let step1 : Bool × String :=
      if sStartsWith arg0 "\"" then (!isDouble, sDrop arg0 1) else (isDouble, arg0)
    let isD := step1.1
    -- lines 140-145: a leading $ is removed and the rest looked up
    let arg :=
      if sStartsWith step1.2 "$" then expandLookup vars env (sDrop step1.2 1)
      else step1.2
    -- lines 146-174: redirection handling, only outside double quotes
    match (if isD then none else findGt arg) with
    | some index =>
      let oldFd? : Result Int :=
        if sStartsWith arg ">" then .ok 1
        else
          match parseI32 (sTake arg index) with
          | some v => .ok v
          | none => .error .notFound
      match oldFd? with
      | .error e => .error e
      | .ok oldFd =>
        if sStartsWith (sDrop arg index) ">&" then
          if sEndsWith arg ">&" then
            parseShellAux vars env rest (some (.dupFd oldFd)) isD inDouble
              result redirs
          else
            match parseI32 (sDrop arg (index + 2)) with
            | none => .error .notFound
            | some newFd =>
              parseShellAux vars env rest none isD inDouble result
                (redirs ++ [.dup oldFd newFd])
        else
          if sLength arg = 1 then
            parseShellAux vars env rest (some (.pathFd oldFd)) isD inDouble
              result redirs
          else
            parseShellAux vars env rest none isD inDouble result
              (redirs ++ [.file oldFd (sDrop arg 1) (O_CREAT + O_WRONLY) S_IRUSR])
    | none =>
      -- lines 176-179: a trailing double quote toggles is_double and is removed
      let step2 : Bool × String :=
        if sEndsWith arg "\"" then (!isD, sDropLast arg) else (isD, arg)
      -- lines 180-184: push to result, or absorb into in_double
      if step2.1 then
        parseShellAux vars env rest none step2.1 (inDouble ++ step2.2) result redirs
      else
        parseShellAux vars env rest none step2.1 inDouble (result ++ [step2.2]) redirs

/-- Shell::parse_shell (src/shell/mod.rs lines 124-187) over the tokens that
follow the command token: returns the surviving argument list and the
recorded redirection requests. -/
def parse_shell (vars env : List (String × String)) (ts : List String) :
    Result (List String × List Redir) :=
  parseShellAux vars env ts none false "" [] []

/-- Assignment-peeling loop of Shell::parse (src/shell/mod.rs lines 85-96):
tokens containing `=` are pushed onto the environment until the first token
without `=`, which becomes the command; running out of tokens is
`Err(NotFound)`. Returns (pushed overrides, command, remaining tokens). -/
def peelOverrides : List String → Result (List String × String × List String)
  | [] => .error .notFound
  | t :: rest =>
    if sContains t '=' then
      match peelOverrides rest with
      | .ok (os, c, args) => .ok (t :: os, c, args)
      | .error e => .error e
    else .ok ([], t, rest)

/-- Directory entry as seen by Shell::find_path: `file_name()` and `path()`
of a `std::fs::DirEntry`. -/
structure DirEntry where
  fileName : String
  path : String
deriving DecidableEq, Repr

/-- Read-only view of the file system consumed by Shell::find_path.
`readDir d = none` models `d.read_dir()` returning `Err`; a `none` inside
the entry list models an `Err` entry, which the source skips (line 203).
`canonicalize` models `PathBuf::canonicalize().ok()`. -/
structure FileSys where
  readDir : String → Option (List (Option DirEntry))
  canonicalize : String → Option String

/-- Rust's `Path::is_absolute` on Unix: the path has a root. -/
def isAbsolute (p : String) : Bool := sStartsWith p "/"

/-- Rust's `PathBuf::join`: an absolute right side replaces the left. -/
def joinPath (a b : String) : String :=
  if isAbsolute b then b else a ++ "/" ++ b

/-- Inner scan of Shell::find_path lines 202-207: first entry of the listing
whose file name equals the searched name; `Err` entries are skipped. -/
def findEntry : List (Option DirEntry) → String → Option String
  | [], _ => none
  | none :: es, name => findEntry es name
  | some e :: es, name =>
    if e.fileName = name then some e.path else findEntry es name

/-- Outer scan of Shell::find_path lines 200-210: each PATH directory in
list order; directories whose `read_dir` fails are skipped. -/
def findInDirs (fs : FileSys) : List String → String → Option String
  | [], _ => none
  | d :: ds, name =>
    match fs.readDir d with
    | none => findInDirs fs ds name
    | some entries =>
      match findEntry entries name with
      | some p => some p
      | none => findInDirs fs ds name

/-- Shell::find_path (src/shell/mod.rs lines 190-213): a name containing a
path separator is taken as-is when rooted, else joined to the current
working directory and canonicalized; a bare name is searched for in the
PATH directories. -/
def find_path (fs : FileSys) (cwd : String) (dirs : List String)
    (name : String) : Option String :=
  if sContains name '/' then
    if isAbsolute name then some name
    else fs.canonicalize (joinPath cwd name)
  else findInDirs fs dirs name

/-- Inner loop of split_arguments (src/shell/splitter.rs lines 11-19): walks
the enumerated characters, cutting a slice `line[start..number]` at every
space. `line` is the full character list, the second list the remaining
characters, then the current index `number` and the slice start. -/
def splitArgsGo (line : List Char) : List Char → Nat → Nat → List String
  | [], _number, start => [⟨line.drop start⟩]
  | c :: cs, number, start =>
    if c = ' ' then
      ⟨(line.drop start).take (number - start)⟩ ::
        splitArgsGo line cs (number + 1) (number + 1)
    else splitArgsGo line cs (number + 1) start

/-- split_arguments from src/shell/splitter.rs lines 8-22: splits the line
at every space character and finally pushes the tail slice `line[start..]`.
ASCII inputs make byte and char indices coincide. -/
def split_arguments (line : String) : List String :=
  splitArgsGo line.toList line.toList 0 0

/-- Everything the closure passed to fork_process computes before execve
(src/shell/mod.rs lines 106-117): the tokens consumed as overrides, the
command token exactly as it reached find_path, the resolved path, the argv
(command token prepended to the parse_shell output), the envp (formatted
process environment followed by the pushed override tokens), and the
recorded redirections. -/
structure Invocation where
  overrides : List String
  cmd : String
  path : String
  argv : List String
  envp : List String
  redirs : List Redir
deriving DecidableEq, Repr

/-- Environment formatting of Shell::parse lines 82-84:
`vars().map(|(k, v)| format!("{}={}", k, v))`. -/
def envStrings (env : List (String × String)) : List String :=
  env.map fun kv => kv.1 ++ "=" ++ kv.2

/-- The non-builtin branch of Shell::parse together with the closure body
(src/shell/mod.rs lines 80-121), on an already tokenized line: peel the
assignments, resolve the command token verbatim, parse the remaining tokens,
and assemble the invocation that would be passed to execute. -/
def childOfTokens (fs : FileSys) (sh : Shell) (env : List (String × String))
    (ts : List String) : Result Invocation :=
  match peelOverrides ts with
  | .error e => .error e
  | .ok (os, argument, rest) =>
    match find_path fs sh.cwd sh.path argument with
    | none => .error .notFound
    | some path =>
      match parse_shell sh.vars env rest with
      | .error e => .error e
      | .ok (args, reds) =>
        .ok ⟨os, argument, path, argument :: args,
          envStrings env ++ os, reds⟩

/-- The same on a raw line, tokenized as in Shell::parse line 81. -/
def childInvocation (fs : FileSys) (sh : Shell) (env : List (String × String))
    (line : String) : Result Invocation :=
  childOfTokens fs sh env (splitWhitespace line)

/-- Oracle for the fork() call in fork_process (src/native/mod.rs lines
170-182) as observed by the parent: fork returned -1 with the given errno,
or the parent branch ran and waitpid produced the given status. -/
inductive ForkOutcome where
  | failed (errnoCode : Int)
  | parent (waitStatus : Int)
deriving DecidableEq, Repr

/-- Parent-side system calls issued while one line is parsed and run. -/
inductive Effect where
  | write (fd : Int) (text : String)
  | fork
  | wait
  | openFd (path : String) (flags : Int) (mode : Int)
  | dup2 (newFd oldFd : Int)
deriving DecidableEq, Repr

/-- Effects that change the file-descriptor table. -/
def Effect.isFdOp : Effect → Bool
  | .openFd _ _ _ => true
  | .dup2 _ _ => true
  | _ => false

/-- Shell::parse (src/shell/mod.rs lines 80-122), parent side: tokenize,
peel assignments, handle the builtins `exit` and `pwd`, otherwise fork and
record the wait status into the state. The closure (resolution, parse_shell,
execve) runs only in the child and is modelled by `childOfTokens`; the
returned list records the parent's own system calls. The write performed by
`pwd` is modelled as succeeding. -/
def parse (sh : Shell) (env : List (String × String)) (fork : ForkOutcome)
    (line : String) : Result (Bool × Shell) × List Effect :=
  match peelOverrides (splitWhitespace line) with
  | .error e => (.error e, [])
  | .ok (_os, argument, _rest) =>
    if argument = "exit" then (.ok (true, sh), [])
    else if argument = "pwd" then
      (.ok (false, sh), [Effect.write 1 (sh.cwd ++ "\n")])
    else
      match fork with
      | .failed c => (.error (.errno c), [Effect.fork])
      | .parent st =>
        (.ok (false, { sh with status := st }), [Effect.fork, Effect.wait])

/-- One iteration of Shell::interact (src/shell/mod.rs lines 238-247) after
the line was read: `if self.parse(&input)? { break }`. An `Err` from parse
is propagated by `?`, returning from interact; `Ok(true)` breaks;
`Ok(false)` continues with the next line. -/
inductive LoopStep where
  | next
  | stop
  | fail (e : Error)
deriving DecidableEq, Repr

/-- Fate of one interact iteration given the result of parse. -/
def interactStep (r : Result Bool) : LoopStep :=
  match r with
  | .error e => .fail e
  | .ok true => .stop
  | .ok false => .next

/-- What became of the forked child: execve replaced the image with the
invocation, or the closure returned an error (fork_process line 172 then
yields `Err` in the child). -/
inductive ChildRun where
  | replaced (inv : Invocation)
  | returned (e : Error)
deriving DecidableEq, Repr

/-- The child branch of fork_process running the Shell::parse closure, with
execute (src/native/mod.rs lines 185-213) modelled by an errno oracle:
`none` means execve succeeded and never returned; `some c` means execve
failed and `Error::from_errno()` captured code `c`. -/
def runChild (inv : Result Invocation) (execErrno : Option Int) : ChildRun :=
  match inv with
  | .error e => .returned e
  | .ok i =>
    match execErrno with
    | none => .replaced i
    | some c => .returned (Error.errno c)

/-- Value of the fork_process call as seen inside the child
(src/native/mod.rs line 172): `none` when the image was replaced (the call
never returns), otherwise `Err` of the closure's error. -/
def forkProcessChild (run : ChildRun) : Option (Result Int) :=
  match run with
  | .replaced _ => none
  | .returned e => some (.error e)

/-- Tail of Shell::parse after fork_process (lines 106, 118-119): the `?`
propagates an error, otherwise the status is stored and parse returns
`Ok(false)`. -/
def parseAfterFork (r : Result Int) : Result Bool :=
  match r with
  | .error e => .error e
  | .ok _ => .ok false

/-- File-descriptor table of the parent process: fd numbers bound to an
open target. -/
inductive FdTarget where
  | file (path : String) (flags : Int) (mode : Int)
  | copyOf (fd : Int)
deriving DecidableEq, Repr

/-- Table as an association list from fd to target. -/
def FdTable := List (Int × FdTarget)

/-- Fd not yet bound in the table, as open(2) allocates a fresh one. -/
def nextFreeFd (t : FdTable) : Int :=
  (t.map Prod.fst).foldl (fun a b => max a (b + 1)) 0

/-- Application of one parent-side effect to the fd table: only open and
dup2 rebind descriptors; write, fork and wait leave the table unchanged. -/
def applyEffect (t : FdTable) : Effect → FdTable
  | .openFd path flags mode => (nextFreeFd t, .file path flags mode) :: t
  | .dup2 newFd oldFd => (oldFd, .copyOf newFd) :: t
  | _ => t

/-- Folding a whole effect list over the table. -/
def applyEffects (t : FdTable) (es : List Effect) : FdTable :=
  es.foldl applyEffect t

/-- Equality of results is decidable, which lets the concrete runs below be
settled by evaluation. -/
instance {ε α : Type} [DecidableEq ε] [DecidableEq α] :
    DecidableEq (Except ε α) := fun x y =>
  match x, y with
  | .ok a, .ok b =>
    if h : a = b then .isTrue (by rw [h]) else .isFalse (by simp [h])
  | .error a, .error b =>
    if h : a = b then .isTrue (by rw [h]) else .isFalse (by simp [h])
  | .ok _, .error _ => .isFalse (by simp)
  | .error _, .ok _ => .isFalse (by simp)

/-- Small concrete file system for the sample runs: one PATH directory
`/bin` listing `ls` and `cat`; canonicalization fails everywhere. -/
def fs0 : FileSys where
  readDir d :=
    if d = "/bin" then some [some ⟨"ls", "/bin/ls"⟩, some ⟨"cat", "/bin/cat"⟩]
    else none
  canonicalize _ := none

/-- Concrete shell state for the sample runs: no shell-local variables,
PATH = [/bin]. -/
def sh0 : Shell :=
  ⟨[], false, ["rsh"], 1000, 0, "/home/u", ["/bin"], "host% ", "/home/u"⟩

/-- Single-quote character, written by code point. -/
def squote : Char := Char.ofNat 39

/-- The line `echo 'first argument' 'second argument'` from the unit tests
in src/shell/splitter.rs, built character by character. -/
def squoteLine : String :=
  ⟨['e', 'c', 'h', 'o', ' ', squote, 'f', 'i', 'r', 's', 't', ' ',
    'a', 'r', 'g', 'u', 'm', 'e', 'n', 't', squote, ' ',
    squote, 's', 'e', 'c', 'o', 'n', 'd', ' ',
    'a', 'r', 'g', 'u', 'm', 'e', 'n', 't', squote]⟩

/-- C2: the claim (and the unit tests split_double_quotes and
split_single_quotes next to the function, plus its own doc example) say
that tokenizing `echo "first argument" "second argument"` yields the three
tokens `echo`, `first argument`, `second argument`, in both quote styles.
The function itself cuts at every space and keeps the quote characters, so
both lines evaluate to five tokens with embedded quotes; the code
contradicts its own tests. The shell's own path (split_whitespace plus
parse_shell reassembly) does not produce them either: it loses the opening
fields into the never-flushed in_double buffer. -/
theorem C2_split_arguments_eval :
    split_arguments "echo \"first argument\" \"second argument\"" =
      ["echo", "\"first", "argument\"", "\"second", "argument\""] ∧
    split_arguments "echo \"first argument\" \"second argument\"" ≠
      ["echo", "first argument", "second argument"] ∧
    split_arguments squoteLine =
      ["echo", ⟨[squote, 'f', 'i', 'r', 's', 't']⟩,
       ⟨['a', 'r', 'g', 'u', 'm', 'e', 'n', 't', squote]⟩,
       ⟨[squote, 's', 'e', 'c', 'o', 'n', 'd']⟩,
       ⟨['a', 'r', 'g', 'u', 'm', 'e', 'n', 't', squote]⟩] ∧
    split_arguments squoteLine ≠
      ["echo", "first argument", "second argument"] ∧
    parse_shell [] [] ["\"first", "argument\"", "\"second", "argument\""] =
      .ok (["argument", "argument"], []) := by
  refine ⟨by decide, by decide, by decide, by decide, by decide⟩

/-- C4: parsing the argument fields of `ls >out.txt` yields exactly one
redirection request, opening out.txt with O_CREAT|O_WRONLY and mode S_IRUSR
bound to source fd 1 (the bare `>` defaulting to 1), and `ls 2>&1` yields
the single request duplicating onto fd 2 the target fd 1; both leave the
argument list as just `ls`. -/
theorem C4_redirection_parsing :
    childInvocation fs0 sh0 [] "ls >out.txt" =
      .ok ⟨[], "ls", "/bin/ls", ["ls"], [],
        [.file 1 "out.txt" (O_CREAT + O_WRONLY) S_IRUSR]⟩ ∧
    childInvocation fs0 sh0 [] "ls 2>&1" =
      .ok ⟨[], "ls", "/bin/ls", ["ls"], [], [.dup 2 1]⟩ := by
  refine ⟨by decide, by decide⟩

/-- C1 counterexample: on the assignment-only line `FOO=bar` Shell::parse
returns `Err(NotFound)`; interact's `?` then propagates the error, so the
loop step is `fail`, not `next` — the interactive loop terminates instead
of reporting and continuing, and the parent writes nothing (the recorded
parent-side effects are empty). -/
theorem C1_counterexample :
    (parse sh0 [] (.parent 0) "FOO=bar").1 = .error .notFound ∧
    interactStep ((parse sh0 [] (.parent 0) "FOO=bar").1.map Prod.fst) =
      .fail .notFound ∧
    LoopStep.fail .notFound ≠ LoopStep.next ∧
    (parse sh0 [] (.parent 0) "FOO=bar").2 = [] := by
  refine ⟨by decide, by decide, by decide, by decide⟩

/-- C9 counterexample: executing `FOO=bar ls` from a state with an empty
shell-local variable map leaves the map empty — the leading KEY=VALUE
token is pushed only onto the child's environment and never into
ShellState's variable map, contrary to the claim. -/
theorem C9_counterexample :
    (parse sh0 [] (.parent 0) "FOO=bar ls").1 =
      .ok (false, { sh0 with status := 0 }) ∧
    ({ sh0 with status := 0 } : Shell).vars.lookup "FOO" = none ∧
    (childOfTokens fs0 sh0 [] ["FOO=bar", "ls"]).map Invocation.envp =
      .ok ["FOO=bar"] := by
  refine ⟨by decide, by decide, by decide⟩

/-- C7: a list of leading `=`-containing tokens followed by a token without
`=` peels into exactly those overrides, that command, and the rest; a token
list that never leaves the loop (every token has `=`, including the empty
list) fails with NotFound; and the concrete line `FOO=bar ls -l` yields the
single override FOO=bar, command ls and argument list ls, -l. -/
theorem C7_override_peeling :
    (∀ os c rest, (∀ t ∈ os, sContains t '=' = true) →
      sContains c '=' = false →
      peelOverrides (os ++ c :: rest) = .ok (os, c, rest)) ∧
    (∀ ts, (∀ t ∈ ts, sContains t '=' = true) →
      peelOverrides ts = .error .notFound) ∧
    childOfTokens fs0 sh0 [] ["FOO=bar", "ls", "-l"] =
      .ok ⟨["FOO=bar"], "ls", "/bin/ls", ["ls", "-l"], ["FOO=bar"], []⟩ ∧
    peelOverrides (splitWhitespace "FOO=bar ls -l") =
      .ok (["FOO=bar"], "ls", ["-l"]) := by
  refine ⟨?_, ?_, by decide, by decide⟩
  · intro os c rest hos hc
    induction os with
    | nil => simp [peelOverrides, hc]
    | cons t ts ih =>
      have ht := hos t (by simp)
      have hrest : ∀ x ∈ ts, sContains x '=' = true := fun x hx =>
        hos x (by simp [hx])
      simp [peelOverrides, ht, ih hrest]
  · intro ts hts
    induction ts with
    | nil => rfl
    | cons t ts ih =>
      have ht := hts t (by simp)
      have hrest : ∀ x ∈ ts, sContains x '=' = true := fun x hx =>
        hts x (by simp [hx])
      simp [peelOverrides, ht, ih hrest]

/-- Witness for C7 at the concrete token split of `FOO=bar ls -l`. -/
theorem C7_override_peeling_witness :
    peelOverrides (["FOO=bar"] ++ "ls" :: ["-l"]) =
      .ok (["FOO=bar"], "ls", ["-l"]) :=
  C7_override_peeling.1 ["FOO=bar"] "ls" ["-l"] (by decide) (by decide)

/-- Scan of one directory listing equals the first-match search of
List.findSome? over the entries. -/
theorem findEntry_eq (es : List (Option DirEntry)) (name : String) :
    findEntry es name = es.findSome? (fun oe => oe.bind fun e =>
      if e.fileName = name then some e.path else none) := by
  induction es with
  | nil => rfl
  | cons oe es ih =>
    cases oe with
    | none => simpa [findEntry] using ih
    | some e =>
      by_cases h : e.fileName = name <;>
        simp [findEntry, h, ih, List.findSome?]

/-- Scan of the PATH directories equals the first-match search of
List.findSome? over the directories. -/
theorem findInDirs_eq (fs : FileSys) (dirs : List String) (name : String) :
    findInDirs fs dirs name = dirs.findSome? fun d =>
      (fs.readDir d).bind fun es => findEntry es name := by
  induction dirs with
  | nil => rfl
  | cons d ds ih =>
    cases h : fs.readDir d with
    | none => simp [findInDirs, h, ih, List.findSome?]
    | some es =>
      cases he : findEntry es name <;>
        simp [findInDirs, h, he, ih, List.findSome?]

/-- C8: a command token with a path separator resolves to itself when
rooted and to the canonicalization of cwd/token otherwise (None on
canonicalization failure, by the second equation); a bare name resolves to
the first entry, in PATH-list order then directory-listing order, whose
file name matches exactly — no executability check appears; and the
closure surfaces a failed resolution as NotFound. -/
theorem C8_find_path (fs : FileSys) (cwd : String) (dirs : List String)
    (name : String) :
    (sContains name '/' = true → isAbsolute name = true →
      find_path fs cwd dirs name = some name) ∧
    (sContains name '/' = true → isAbsolute name = false →
      find_path fs cwd dirs name = fs.canonicalize (cwd ++ "/" ++ name)) ∧
    (sContains name '/' = false →
      find_path fs cwd dirs name = dirs.findSome? fun d =>
        (fs.readDir d).bind fun es =>
          es.findSome? fun oe => oe.bind fun e =>
            if e.fileName = name then some e.path else none) ∧
    (∀ sh env ts os rest, peelOverrides ts = .ok (os, name, rest) →
      find_path fs sh.cwd sh.path name = none →
      childOfTokens fs sh env ts = .error .notFound) := by
  refine ⟨?_, ?_, ?_, ?_⟩
  · intro h1 h2
    simp [find_path, h1, h2]
  · intro h1 h2
    simp [find_path, joinPath, h1, h2, isAbsolute] at *
    simp [h2]
  · intro h1
    simp only [find_path, h1, if_false, Bool.false_eq_true]
    have hf : (fun d => (fs.readDir d).bind fun es => findEntry es name) =
        fun d => (fs.readDir d).bind fun es =>
          es.findSome? fun oe => oe.bind fun e =>
            if e.fileName = name then some e.path else none := by
      funext d
      cases fs.readDir d <;> simp [findEntry_eq]
    rw [findInDirs_eq, hf]
  · intro sh env ts os rest hpeel hnone
    simp [childOfTokens, hpeel, hnone]

/-- Witness for C8 at concrete inputs: an absolute path is returned as-is,
a relative path goes through canonicalize (failing on fs0), a bare name is
found in /bin, and a bare name absent from every directory makes the
closure fail with NotFound. -/
theorem C8_find_path_witness :
    find_path fs0 "/home/u" ["/bin"] "/bin/ls" = some "/bin/ls" ∧
    find_path fs0 "/home/u" ["/bin"] "./x" = none ∧
    find_path fs0 "/home/u" ["/bin"] "ls" = some "/bin/ls" ∧
    childOfTokens fs0 sh0 [] ["nope"] = .error .notFound := by
  refine ⟨?_, ?_, by decide, ?_⟩
  · exact (C8_find_path fs0 "/home/u" ["/bin"] "/bin/ls").1 (by decide) (by decide)
  · have h := (C8_find_path fs0 "/home/u" ["/bin"] "./x").2.1 (by decide) (by decide)
    simpa [fs0] using h
  · exact (C8_find_path fs0 "" sh0.path "nope").2.2.2 sh0 [] ["nope"] [] []
      (by decide) (by decide)

/-- C5: the parent side of executing any line records no open and no dup2
effect, so every file-descriptor table is left exactly as it was — the
redirection application happens only in the forked child (the closure,
whose recorded requests never touch the parent). -/
theorem C5_parent_fd_table_unchanged (sh : Shell)
    (env : List (String × String)) (fork : ForkOutcome) (line : String)
    (t : FdTable) :
    applyEffects t (parse sh env fork line).2 = t ∧
    (parse sh env fork line).2.all (fun e => !e.isFdOp) = true := by
  unfold parse
  cases peelOverrides (splitWhitespace line) with
  | error e => simp [applyEffects]
  | ok v =>
    obtain ⟨os, c, rest⟩ := v
    by_cases h1 : c = "exit"
    · simp [h1, applyEffects]
    · by_cases h2 : c = "pwd"
      · simp [h1, h2, applyEffects, applyEffect, Effect.isFdOp]
      · cases fork <;>
          simp [h1, h2, applyEffects, applyEffect, Effect.isFdOp]

/-- C9 amended: command execution mutates ShellState in exactly one way —
whenever parse returns Ok, every field except status is unchanged, and
status either kept its value (builtins, and `exit`) or was overwritten with
the wait status of the forked child; in particular the shell-local variable
map is never touched (assignment tokens go only into the child's
environment). -/
theorem C9_state_frame (sh : Shell) (env : List (String × String))
    (fork : ForkOutcome) (line : String) (b : Bool) (sh' : Shell)
    (h : (parse sh env fork line).1 = .ok (b, sh')) :
    sh'.vars = sh.vars ∧ sh'.is_login = sh.is_login ∧ sh'.argv = sh.argv ∧
    sh'.user = sh.user ∧ sh'.home = sh.home ∧ sh'.path = sh.path ∧
    sh'.prompt = sh.prompt ∧ sh'.cwd = sh.cwd ∧
    (sh'.status = sh.status ∨
      ∃ st, fork = .parent st ∧ sh'.status = st) := by
  unfold parse at h
  cases hp : peelOverrides (splitWhitespace line) with
  | error e => rw [hp] at h; simp at h
  | ok v =>
    obtain ⟨os, c, rest⟩ := v
    rw [hp] at h
    by_cases h1 : c = "exit"
    · simp [h1] at h
      obtain ⟨-, hs⟩ := h
      subst hs
      simp
    · by_cases h2 : c = "pwd"
      · simp [h1, h2] at h
        obtain ⟨-, hs⟩ := h
        subst hs
        simp
      · cases fork with
        | failed ec => simp [h1, h2] at h
        | parent st =>
          simp [h1, h2] at h
          obtain ⟨-, hs⟩ := h
          subst hs
          refine ⟨rfl, rfl, rfl, rfl, rfl, rfl, rfl, rfl, .inr ⟨st, rfl, rfl⟩⟩

/-- Witness for C9's frame theorem: running `ls` with wait status 7 keeps
every field of the concrete state but status. -/
theorem C9_state_frame_witness :
    (parse sh0 [] (.parent 7) "ls").1 =
      .ok (false, { sh0 with status := 7 }) ∧
    ({ sh0 with status := 7 } : Shell).vars = sh0.vars ∧
    (({ sh0 with status := 7 } : Shell).status = sh0.status ∨
      ∃ st, (ForkOutcome.parent 7 : ForkOutcome) = .parent st ∧
        ({ sh0 with status := 7 } : Shell).status = st) := by
  have h : (parse sh0 [] (.parent 7) "ls").1 =
      .ok (false, { sh0 with status := 7 }) := by decide
  have hframe := C9_state_frame sh0 [] (.parent 7) "ls" false
    { sh0 with status := 7 } h
  exact ⟨h, hframe.1, hframe.2.2.2.2.2.2.2.2⟩

/-- C1 amended: an error returned by parse is propagated by interact's `?`,
terminating the loop (fail, not next) — this covers the empty or
assignment-only line (NotFound before forking) and fork failure (Errno);
whereas when fork succeeds the parent's parse returns Ok(false) for any
non-builtin command regardless of what failed inside the child, so only
then does the loop continue. Nothing is written by the loop itself on the
error path. -/
theorem C1_loop_behavior :
    (∀ e, interactStep (.error e) = .fail e ∧ LoopStep.fail e ≠ .next) ∧
    (∀ sh env line, peelOverrides (splitWhitespace line) = .error .notFound →
      ∀ fork, (parse sh env fork line).1 = .error .notFound ∧
        interactStep ((parse sh env fork line).1.map Prod.fst) =
          .fail .notFound ∧
        (parse sh env fork line).2 = []) ∧
    (∀ sh env line st os c rest,
      peelOverrides (splitWhitespace line) = .ok (os, c, rest) →
      c ≠ "exit" → c ≠ "pwd" →
      (parse sh env (.parent st) line).1 =
        .ok (false, { sh with status := st }) ∧
      interactStep ((parse sh env (.parent st) line).1.map Prod.fst) =
        .next) ∧
    (∀ sh env line ec os c rest,
      peelOverrides (splitWhitespace line) = .ok (os, c, rest) →
      c ≠ "exit" → c ≠ "pwd" →
      (parse sh env (.failed ec) line).1 = .error (.errno ec) ∧
      interactStep ((parse sh env (.failed ec) line).1.map Prod.fst) =
        .fail (.errno ec)) := by
  refine ⟨fun e => ⟨rfl, by simp⟩, ?_, ?_, ?_⟩
  · intro sh env line hp fork
    unfold parse
    rw [hp]
    cases fork <;> simp [interactStep, Except.map]
  · intro sh env line st os c rest hp h1 h2
    unfold parse
    rw [hp]
    simp [h1, h2, interactStep, Except.map]
  · intro sh env line ec os c rest hp h1 h2
    unfold parse
    rw [hp]
    simp [h1, h2, interactStep, Except.map]

/-- Witness for C1's amended theorem: the empty line terminates the loop
with NotFound, a successful fork on `ls` keeps it running, and fork
failure with errno 12 terminates it. -/
theorem C1_loop_behavior_witness :
    ((parse sh0 [] (.parent 0) "").1 = .error .notFound ∧
      interactStep ((parse sh0 [] (.parent 0) "").1.map Prod.fst) =
        .fail .notFound ∧
      (parse sh0 [] (.parent 0) "").2 = []) ∧
    ((parse sh0 [] (.parent 3) "ls").1 =
        .ok (false, { sh0 with status := 3 }) ∧
      interactStep ((parse sh0 [] (.parent 3) "ls").1.map Prod.fst) =
        .next) ∧
    ((parse sh0 [] (.failed 12) "ls").1 = .error (.errno 12) ∧
      interactStep ((parse sh0 [] (.failed 12) "ls").1.map Prod.fst) =
        .fail (.errno 12)) := by
  refine ⟨C1_loop_behavior.2.1 sh0 [] "" (by decide) (.parent 0), ?_, ?_⟩
  · exact C1_loop_behavior.2.2.1 sh0 [] "ls" 3 [] "ls" [] (by decide)
      (by decide) (by decide)
  · exact C1_loop_behavior.2.2.2 sh0 [] "ls" 12 [] "ls" [] (by decide)
      (by decide) (by decide)

/-- C6: a field starting with `$` has the `$` stripped and the remainder
looked up in the shell-local map first, then the process environment, with
the empty string when both miss; the field's expansion is appended to the
argument list and no error arises from an undefined name. The side
conditions only keep the expanded value out of the quote and redirection
branches that the source applies afterwards. -/
theorem C6_variable_expansion :
    (∀ vars env t rest inD res reds,
      sStartsWith t "$" = true → sStartsWith t "\"" = false →
      findGt (expandLookup vars env (sDrop t 1)) = none →
      sEndsWith (expandLookup vars env (sDrop t 1)) "\"" = false →
      parseShellAux vars env (t :: rest) none false inD res reds =
        parseShellAux vars env rest none false inD
          (res ++ [expandLookup vars env (sDrop t 1)]) reds) ∧
    (∀ vars env name v, vars.lookup name = some v →
      expandLookup vars env name = v) ∧
    (∀ vars env name v, vars.lookup name = none →
      env.lookup name = some v → expandLookup vars env name = v) ∧
    (∀ vars env name, vars.lookup name = none → env.lookup name = none →
      expandLookup vars env name = "") ∧
    (∀ vars env t,
      sStartsWith t "$" = true → sStartsWith t "\"" = false →
      findGt (expandLookup vars env (sDrop t 1)) = none →
      sEndsWith (expandLookup vars env (sDrop t 1)) "\"" = false →
      parse_shell vars env [t] =
        .ok ([expandLookup vars env (sDrop t 1)], [])) := by
  have hstep : ∀ (vars env : List (String × String)) t rest inD res reds,
      sStartsWith t "$" = true → sStartsWith t "\"" = false →
      findGt (expandLookup vars env (sDrop t 1)) = none →
      sEndsWith (expandLookup vars env (sDrop t 1)) "\"" = false →
      parseShellAux vars env (t :: rest) none false inD res reds =
        parseShellAux vars env rest none false inD
          (res ++ [expandLookup vars env (sDrop t 1)]) reds := by
    intro vars env t rest inD res reds h1 h2 h3 h4
    simp only [parseShellAux, h1, h2, h3, h4, Bool.false_eq_true, if_false,
      if_true, Bool.not_false]
  refine ⟨hstep, ?_, ?_, ?_, ?_⟩
  · intro vars env name v h
    simp [expandLookup, h]
  · intro vars env name v h1 h2
    simp [expandLookup, h1, h2]
  · intro vars env name h1 h2
    simp [expandLookup, h1, h2]
  · intro vars env t h1 h2 h3 h4
    rw [parse_shell, hstep vars env t [] "" [] [] h1 h2 h3 h4]
    simp [parseShellAux]

/-- Witness for C6: a shell-local FOO expands to bar, and an undefined BAZ
expands to the empty string without an error. -/
theorem C6_variable_expansion_witness :
    parse_shell [("FOO", "bar")] [] ["$FOO"] = .ok (["bar"], []) ∧
    parse_shell [] [("FOO", "env")] ["$FOO"] = .ok (["env"], []) ∧
    parse_shell [] [] ["$BAZ"] = .ok ([""], []) := by
  have ha := C6_variable_expansion.2.2.2.2 [("FOO", "bar")] [] "$FOO"
    (by decide) (by decide) (by decide) (by decide)
  have hb := C6_variable_expansion.2.2.2.2 [] [("FOO", "env")] "$FOO"
    (by decide) (by decide) (by decide) (by decide)
  have hc := C6_variable_expansion.2.2.2.2 [] [] "$BAZ"
    (by decide) (by decide) (by decide) (by decide)
  have ea : expandLookup [("FOO", "bar")] [] (sDrop "$FOO" 1) = "bar" := by
    decide
  have eb : expandLookup [] [("FOO", "env")] (sDrop "$FOO" 1) = "env" := by
    decide
  have ec : expandLookup [] [] (sDrop "$BAZ" 1) = "" := by decide
  rw [ea] at ha
  rw [eb] at hb
  rw [ec] at hc
  exact ⟨ha, hb, hc⟩

/-- C10: for any token sequence that peels into overrides, command and
rest, a successful child invocation carries the override tokens and the
command token verbatim — the command is the exact string given to
find_path and becomes argument zero unchanged, while only the tokens after
it went through parse_shell (expansion, quote stripping, redirections). -/
theorem C10_command_verbatim (fs : FileSys) (sh : Shell)
    (env : List (String × String)) (ts os : List String) (c : String)
    (rest : List String) (inv : Invocation)
    (hpeel : peelOverrides ts = .ok (os, c, rest))
    (hok : childOfTokens fs sh env ts = .ok inv) :
    inv.cmd = c ∧ inv.overrides = os ∧ inv.argv.head? = some c ∧
    find_path fs sh.cwd sh.path c = some inv.path ∧
    inv.envp = envStrings env ++ os ∧
    ∃ args reds, parse_shell sh.vars env rest = .ok (args, reds) ∧
      inv.argv = c :: args ∧ inv.redirs = reds := by
  unfold childOfTokens at hok
  rw [hpeel] at hok
  simp only at hok
  cases hf : find_path fs sh.cwd sh.path c with
  | none => rw [hf] at hok; simp at hok
  | some path =>
    rw [hf] at hok
    simp only at hok
    cases hps : parse_shell sh.vars env rest with
    | error e => rw [hps] at hok; simp at hok
    | ok pr =>
      obtain ⟨args, reds⟩ := pr
      rw [hps] at hok
      simp only [Except.ok.injEq] at hok
      subst hok
      exact ⟨rfl, rfl, rfl, rfl, rfl, args, reds, rfl, rfl, rfl⟩

/-- File system whose /bin holds an entry literally named `$CMD`, showing
that command resolution receives the unexpanded token. -/
def fsDollar : FileSys where
  readDir d :=
    if d = "/bin" then some [some ⟨"$CMD", "/bin/$CMD"⟩] else none
  canonicalize _ := none

/-- Witness for C10: on `A=1 $CMD $X` the command `$CMD` is resolved under
its literal dollar name and kept verbatim as argument zero, while the
argument `$X` after it was expanded (to the empty string). -/
theorem C10_command_verbatim_witness :
    childOfTokens fsDollar sh0 [] ["A=1", "$CMD", "$X"] =
      .ok ⟨["A=1"], "$CMD", "/bin/$CMD", ["$CMD", ""], ["A=1"], []⟩ ∧
    (⟨["A=1"], "$CMD", "/bin/$CMD", ["$CMD", ""], ["A=1"], []⟩ :
      Invocation).cmd = "$CMD" ∧
    find_path fsDollar sh0.cwd sh0.path "$CMD" = some "/bin/$CMD" := by
  have hok : childOfTokens fsDollar sh0 [] ["A=1", "$CMD", "$X"] =
      .ok ⟨["A=1"], "$CMD", "/bin/$CMD", ["$CMD", ""], ["A=1"], []⟩ := by
    decide
  have h := C10_command_verbatim fsDollar sh0 [] ["A=1", "$CMD", "$X"]
    ["A=1"] "$CMD" ["$X"]
    ⟨["A=1"], "$CMD", "/bin/$CMD", ["$CMD", ""], ["A=1"], []⟩
    (by decide) hok
  exact ⟨hok, h.1, h.2.2.2.1⟩

/-- C3: whenever the exec call in the forked child fails (the errno oracle
reports a code), the closure's run ends in `returned`, fork_process yields
an error in the child, parse propagates it, and the interact step is
`fail` — the child never continues the interactive read loop — while the
error is the captured errno whenever the invocation itself had been
assembled. -/
theorem C3_child_exec_failure (inv : Result Invocation) (c : Int) :
    ∃ e, runChild inv (some c) = .returned e ∧
      forkProcessChild (runChild inv (some c)) = some (.error e) ∧
      parseAfterFork (.error e) = .error e ∧
      interactStep (parseAfterFork (.error e)) = .fail e ∧
      LoopStep.fail e ≠ .next ∧
      (∀ i, inv = .ok i → e = .errno c) := by
  cases inv with
  | error e0 =>
    exact ⟨e0, rfl, rfl, rfl, rfl, by simp, fun i h => by simp at h⟩
  | ok i0 =>
    exact ⟨.errno c, rfl, rfl, rfl, rfl, by simp, fun i h => rfl⟩

/-- Concrete invocation used by the C3 witness. -/
def invLs : Invocation := ⟨[], "ls", "/bin/ls", ["ls"], [], []⟩

/-- Witness for C3: exec failing with errno 2 on a resolved `ls` makes the
child branch return the captured errno and leave the loop. -/
theorem C3_child_exec_failure_witness :
    runChild (.ok invLs) (some 2) = .returned (.errno 2) ∧
    forkProcessChild (runChild (.ok invLs) (some 2)) =
      some (.error (.errno 2)) ∧
    interactStep (parseAfterFork (.error (.errno 2))) = .fail (.errno 2) := by
  obtain ⟨e, h1, h2, h3, h4, h5, h6⟩ := C3_child_exec_failure (.ok invLs) 2
  have he : e = .errno 2 := h6 invLs rfl
  subst he
  exact ⟨h1, h2, h4⟩

end Rsh
